import Mathlib

/-!
Verification of the Note-Summarizer backend (`server.py`) against its
natural-language specification.

The program is embedded shallowly: text is `List Char`, Python string
primitives (`split`, `strip`, `replace`, `endswith`, the regular
expressions used by `clean_text`) are modelled as executable Lean
functions over `List Char`, and the two external effects (the PDF
library and the LLM call) are parameters of the embedded operations.
The character-class predicates model Python's `\s` / `\d` and
`str.strip()` on ASCII text.
-/

/-- Characters treated as whitespace by Python's `\s` and `str.strip()`
(ASCII model): space, tab, newline, carriage return, vertical tab,
form feed. -/
def isPySpace (c : Char) : Bool :=
  c = ' ' || c = '\t' || c = '\n' || c = '\r' || c = '\x0b' || c = '\x0c'

/-- Characters matched by Python's `\d` (ASCII model): the digits 0-9. -/
def isPyDigit (c : Char) : Bool :=
  c.isDigit

/-- The character list of a string literal (Python text as `List Char`). -/
def chars (s : String) : List Char :=
  s.data

/-- Python `s.lstrip()`: drop leading whitespace. -/
def pyLStrip (l : List Char) : List Char :=
  l.dropWhile isPySpace

/-- Python `s.rstrip()`: drop trailing whitespace. -/
def pyRStrip (l : List Char) : List Char :=
  (l.reverse.dropWhile isPySpace).reverse

/-- Python `s.strip()`: drop leading and trailing whitespace. -/
def pyStrip (l : List Char) : List Char :=
  pyLStrip (pyRStrip l)

/-- Scanner for Python `s.split(sep)` with a non-empty separator:
leftmost non-overlapping occurrences of `pat` cut the list; `skip`
counts separator characters still to be consumed after a match. -/
def pySplitAux (pat : List Char) : List Char → Nat → List (List Char)
  | [], _ => [[]]
  | _ :: rest, Nat.succ skip => pySplitAux pat rest skip
  | c :: rest, 0 =>
    if !pat.isEmpty && pat.isPrefixOf (c :: rest) then
      [] :: pySplitAux pat rest (pat.length - 1)
    else
      match pySplitAux pat rest 0 with
      | [] => [[c]]
      | h :: t => (c :: h) :: t

/-- Python `s.split(sep)` for a non-empty separator `pat`. -/
def pySplit (pat s : List Char) : List (List Char) :=
  pySplitAux pat s 0

/-- Scanner for Python `s.replace(pat, "")`: leftmost non-overlapping
occurrences of `pat` are deleted; `skip` counts matched characters
still to be consumed. -/
def pyReplaceAux (pat : List Char) : List Char → Nat → List Char
  | [], _ => []
  | _ :: rest, Nat.succ skip => pyReplaceAux pat rest skip
  | c :: rest, 0 =>
    if !pat.isEmpty && pat.isPrefixOf (c :: rest) then
      pyReplaceAux pat rest (pat.length - 1)
    else
      c :: pyReplaceAux pat rest 0

/-- Python `s.replace(pat, "")`: delete every occurrence of `pat`. -/
def pyReplace (pat s : List Char) : List Char :=
  pyReplaceAux pat s 0

/-- Python `re.sub(r"\s+", " ", s)`: every maximal whitespace run
becomes one space. A whitespace character merges into an already
emitted space of the same run; otherwise it emits a single space. -/
def collapseWs : List Char → List Char
  | [] => []
  | c :: rest =>
    let r := collapseWs rest
    if isPySpace c then
      if r.head? = some ' ' then r else ' ' :: r
    else
      c :: r

/-- Python `re.fullmatch(r"\d+", line)` viewed as a Bool: the line is
nonempty and consists entirely of digits. -/
def fullmatchDigits (l : List Char) : Bool :=
  !l.isEmpty && l.all isPyDigit

/-- One alternative of the header regex: the line starts (after
lowercasing, modelling `re.I`) with the keyword `kw`, then zero or
more whitespace characters, then at least one digit. -/
def headerKw (kw l : List Char) : Bool :=
  ((l.take kw.length).map Char.toLower == kw) &&
    (match (l.drop kw.length).dropWhile isPySpace with
     | [] => false
     | c :: _ => isPyDigit c)

/-- Python `re.match(r"^(Page|Chapter|Section)\s*\d+", line, re.I)`
viewed as a Bool (`server.py` line 62). -/
def matchHeader (l : List Char) : Bool :=
  headerKw (chars "page") l || headerKw (chars "chapter") l || headerKw (chars "section") l

/-- The filter of `server.py` lines 58-63: a stripped line is kept when
it is truthy (nonempty), not all digits, and not a page/chapter/section
header. -/
def keepLine (l : List Char) : Bool :=
  !l.isEmpty && !fullmatchDigits l && !matchHeader l

/-- `clean_text` of `server.py` lines 56-64: split on newlines, strip
each line, drop empty / digit-only / header lines, join the survivors
with single spaces, collapse whitespace runs. -/
def clean_text (text : List Char) : List Char :=
  let lines := (pySplit (chars "\n") text).map pyStrip
  let kept := lines.filter keepLine
  collapseWs (List.intercalate (chars " ") kept)

/-- No two consecutive space characters occur in the list. -/
def noTwoSpaces : List Char → Bool
  | [] => true
  | [_] => true
  | a :: b :: rest => !(a == ' ' && b == ' ') && noTwoSpaces (b :: rest)

/-- The discard condition of spec §4.2 step 2: a trimmed line is
dropped when it is empty, consists entirely of digits, or matches the
header pattern. -/
def discardLine (l : List Char) : Bool :=
  l.isEmpty || fullmatchDigits l || matchHeader l

/-- The Text Cleaner as described by spec §4.2: split on line
boundaries, trim each line, discard per `discardLine`, join survivors
with a single space, collapse whitespace runs. -/
def clean_text_spec (text : List Char) : List Char :=
  collapseWs (List.intercalate (chars " ")
    (((pySplit (chars "\n") text).map pyStrip).filter (fun l => !discardLine l)))

/-- The three note sections produced by `generate_notes`
(`server.py` line 98, the `sections` dict). -/
structure Sections where
  short_notes : List Char
  bullet_points : List Char
  exam_summary : List Char
deriving DecidableEq

/-- The body of the `for part in parts` loop of `server.py` lines
101-108: strip the fragment, classify it by which heading label it
starts with, and store the fragment with the label deleted and
re-stripped; an unmatched fragment leaves the dict unchanged. -/
def noteStep (acc : Sections) (part : List Char) : Sections :=
  let part := pyStrip part
  if (chars "Short Notes").isPrefixOf part then
    { acc with short_notes := pyStrip (pyReplace (chars "Short Notes") part) }
  else if (chars "Bullet Points").isPrefixOf part then
    { acc with bullet_points := pyStrip (pyReplace (chars "Bullet Points") part) }
  else if (chars "Exam-Oriented Summary").isPrefixOf part then
    { acc with exam_summary := pyStrip (pyReplace (chars "Exam-Oriented Summary") part) }
  else
    acc

/-- The response parser of `generate_notes` (`server.py` lines
96-110). The prompt construction and the LLM call are external
effects; `output` is the model's response text (`response.text or ""`).
The code splits the response on `"###"` and folds the loop body over
the fragments, starting from three empty sections. -/
def generate_notes (output : List Char) : Sections :=
  let parts := pySplit (chars "###") output
  parts.foldl noteStep ⟨[], [], []⟩

/-- Events on the PDF document handle opened by
`extract_text_from_pdf` (`server.py` lines 46-53). -/
inductive Ev where
  | opened
  | closed
deriving DecidableEq

/-- Sequencing of `page.get_text() for page in doc`: page texts are
read in order and the first page whose `get_text` raises aborts the
whole comprehension with that exception. -/
def joinPages : List (Except Unit (List Char)) → Except Unit (List (List Char))
  | [] => .ok []
  | p :: ps =>
    match p with
    | .error e => .error e
    | .ok t =>
      match joinPages ps with
      | .error e => .error e
      | .ok ts => .ok (t :: ts)

/-- `extract_text_from_pdf` of `server.py` lines 46-53, instrumented
with the trace of events on the document handle. The external PDF
library is modelled by `openRes`: `fitz.open` either raises or yields
the list of pages, each of whose `get_text()` either raises or yields
its text. The code closes the document only after every page text has
been read; any exception is converted to a 400 error by the
`except` clause. -/
def extract_text_from_pdf (openRes : Except Unit (List (Except Unit (List Char)))) :
    List Ev × Except (Nat × List Char) (List Char) :=
  match openRes with
  | .error _ => ([], .error (400, chars "PDF text extraction failed"))
  | .ok pages =>
    match joinPages pages with
    | .error _ => ([Ev.opened], .error (400, chars "PDF text extraction failed"))
    | .ok texts => ([Ev.opened, Ev.closed], .ok (List.intercalate (chars " ") texts))

/-- Outcome of the `/upload` handler: a JSON body `{"text": cleaned}`,
an `HTTPException(status, detail)`, or an exception the handler does
not catch (a UTF-8 decode error), which the framework turns into a
server error. -/
inductive UploadResult where
  | ok (text : List Char)
  | err (status : Nat) (detail : List Char)
  | uncaught
deriving DecidableEq

/-- `upload_file` of `server.py` lines 121-137. The filename decides
the dispatch with Python's case-sensitive `str.endswith`; the PDF
library and the UTF-8 decoder are the two external effects, passed in
as `openRes` and `decoded`. -/
def upload_file (filename : List Char) (openRes : Except Unit (List (Except Unit (List Char))))
    (decoded : Except Unit (List Char)) : UploadResult :=
  if (chars ".pdf").isSuffixOf filename then
    match (extract_text_from_pdf openRes).2 with
    | .error (st, d) => .err st d
    | .ok text =>
      let cleaned := clean_text text
      if cleaned.isEmpty then .err 400 (chars "No valid text found") else .ok cleaned
  else if (chars ".txt").isSuffixOf filename then
    match decoded with
    | .error _ => .uncaught
    | .ok text =>
      let cleaned := clean_text text
      if cleaned.isEmpty then .err 400 (chars "No valid text found") else .ok cleaned
  else
    .err 400 (chars "Only PDF and TXT supported")

lemma isPySpace_space : isPySpace ' ' = true := rfl

lemma ne_space_of_not_isPySpace {c : Char} (h : isPySpace c = false) : c ≠ ' ' := by
  intro hc
  rw [hc] at h
  simp [isPySpace] at h

lemma bif_pos {α : Sort _} {b : Bool} {x y : α} (h : b = true) :
    (if b then x else y) = x := by subst h; rfl

lemma bif_neg {α : Sort _} {b : Bool} {x y : α} (h : b = false) :
    (if b then x else y) = y := by subst h; rfl

lemma collapseWs_nil : collapseWs [] = [] := rfl

lemma collapseWs_cons (c : Char) (rest : List Char) :
    collapseWs (c :: rest) =
      if isPySpace c then
        if (collapseWs rest).head? = some ' ' then collapseWs rest else ' ' :: collapseWs rest
      else c :: collapseWs rest := rfl

lemma noTwoSpaces_collapseWs (l : List Char) : noTwoSpaces (collapseWs l) = true := by
  induction l with
  | nil => rfl
  | cons c rest ih =>
    rw [collapseWs_cons]
    cases hc : isPySpace c with
    | false =>
      rw [bif_neg rfl]
      cases hr : collapseWs rest with
      | nil => rfl
      | cons d t =>
        rw [hr] at ih
        have hcs : (c == ' ') = false := by
          simp [ne_space_of_not_isPySpace hc]
        simp [noTwoSpaces, hcs, ih]
    | true =>
      rw [bif_pos rfl]
      by_cases hh : (collapseWs rest).head? = some ' '
      · rw [if_pos hh]; exact ih
      · rw [if_neg hh]
        cases hr : collapseWs rest with
        | nil => rfl
        | cons d t =>
          rw [hr] at ih hh
          have hd : (d == ' ') = false := by
            simp only [List.head?_cons] at hh
            simp only [beq_eq_false_iff_ne, ne_eq]
            intro h; exact hh (by rw [h])
          simp [noTwoSpaces, hd, ih]

lemma mem_collapseWs {l : List Char} {c : Char} (h : c ∈ collapseWs l) :
    c = ' ' ∨ isPySpace c = false := by
  induction l with
  | nil => simp [collapseWs_nil] at h
  | cons a rest ih =>
    rw [collapseWs_cons] at h
    cases ha : isPySpace a with
    | false =>
      rw [bif_neg ha] at h
      rcases List.mem_cons.mp h with rfl | h
      · exact Or.inr ha
      · exact ih h
    | true =>
      rw [bif_pos ha] at h
      by_cases hh : (collapseWs rest).head? = some ' '
      · rw [if_pos hh] at h; exact ih h
      · rw [if_neg hh] at h
        rcases List.mem_cons.mp h with rfl | h
        · exact Or.inl rfl
        · exact ih h

lemma mem_collapseWs_of_mem {l : List Char} {c : Char} (hc : isPySpace c = false)
    (h : c ∈ l) : c ∈ collapseWs l := by
  induction l with
  | nil => simp at h
  | cons a rest ih =>
    rw [collapseWs_cons]
    rcases List.mem_cons.mp h with rfl | h
    · rw [bif_neg hc]
      exact List.mem_cons_self _ _
    · have hmem := ih h
      cases ha : isPySpace a with
      | false => rw [bif_neg rfl]; exact List.mem_cons_of_mem _ hmem
      | true =>
        rw [bif_pos rfl]
        by_cases hh : (collapseWs rest).head? = some ' '
        · rw [if_pos hh]; exact hmem
        · rw [if_neg hh]; exact List.mem_cons_of_mem _ hmem

lemma space_mem_collapseWs {l : List Char} {c : Char} (hc : isPySpace c = true)
    (h : c ∈ l) : ' ' ∈ collapseWs l := by
  induction l with
  | nil => simp at h
  | cons a rest ih =>
    rw [collapseWs_cons]
    rcases List.mem_cons.mp h with rfl | h
    · rw [bif_pos hc]
      by_cases hh : (collapseWs rest).head? = some ' '
      · rw [if_pos hh]
        obtain ⟨t, ht⟩ := List.head?_eq_some_iff.mp hh
        rw [ht]
        exact List.mem_cons_self _ _
      · rw [if_neg hh]; exact List.mem_cons_self _ _
    · have hmem := ih h
      cases ha : isPySpace a with
      | false => rw [bif_neg rfl]; exact List.mem_cons_of_mem _ hmem
      | true =>
        rw [bif_pos rfl]
        by_cases hh : (collapseWs rest).head? = some ' '
        · rw [if_pos hh]; exact hmem
        · rw [if_neg hh]; exact List.mem_cons_of_mem _ hmem

lemma collapseWs_head?_of_not_space {c : Char} {rest : List Char} (h : isPySpace c = false) :
    (collapseWs (c :: rest)).head? = some c := by
  rw [collapseWs_cons, bif_neg h]
  rfl

lemma collapseWs_getLast? {l : List Char} {c : Char} (hc : isPySpace c = false)
    (h : l.getLast? = some c) : (collapseWs l).getLast? = some c := by
  induction l with
  | nil => simp at h
  | cons a rest ih =>
    cases rest with
    | nil =>
      simp only [List.getLast?_singleton, Option.some_inj] at h
      subst h
      rw [collapseWs_cons, bif_neg hc]
      rfl
    | cons b rs =>
      rw [List.getLast?_cons_cons] at h
      have ihh := ih h
      obtain ⟨d, t, hdt⟩ : ∃ d t, collapseWs (b :: rs) = d :: t := by
        cases hck : collapseWs (b :: rs) with
        | nil => rw [hck] at ihh; simp at ihh
        | cons d t => exact ⟨d, t, rfl⟩
      rw [collapseWs_cons]
      cases ha : isPySpace a with
      | false =>
        rw [bif_neg rfl]
        rw [hdt] at ihh ⊢
        rw [List.getLast?_cons_cons]
        exact ihh
      | true =>
        rw [bif_pos rfl]
        by_cases hh : (collapseWs (b :: rs)).head? = some ' '
        · rw [if_pos hh]; exact ihh
        · rw [if_neg hh]
          rw [hdt] at ihh ⊢
          rw [List.getLast?_cons_cons]
          exact ihh

lemma collapseWs_collapseWs (l : List Char) : collapseWs (collapseWs l) = collapseWs l := by
  induction l with
  | nil => rfl
  | cons c rest ih =>
    rw [collapseWs_cons]
    cases hc : isPySpace c with
    | false =>
      rw [bif_neg rfl, collapseWs_cons, bif_neg hc, ih]
    | true =>
      rw [bif_pos rfl]
      by_cases hh : (collapseWs rest).head? = some ' '
      · rw [if_pos hh]; exact ih
      · rw [if_neg hh]
        rw [collapseWs_cons, bif_pos isPySpace_space, ih, if_neg hh]

lemma head?_dropWhile_false {p : Char → Bool} {l : List Char} {c : Char}
    (h : (l.dropWhile p).head? = some c) : p c = false := by
  induction l with
  | nil => simp at h
  | cons a rest ih =>
    cases hp : p a with
    | true =>
      rw [List.dropWhile_cons_of_pos hp] at h
      exact ih h
    | false =>
      rw [List.dropWhile_cons_of_neg (by simp [hp])] at h
      simp only [List.head?_cons, Option.some_inj] at h
      subst h
      exact hp

lemma dropWhile_eq_self_of_head {p : Char → Bool} {l : List Char} {c : Char}
    (hh : l.head? = some c) (hc : p c = false) : l.dropWhile p = l := by
  obtain ⟨t, rfl⟩ := List.head?_eq_some_iff.mp hh
  exact List.dropWhile_cons_of_neg (by simp [hc])

lemma pyStrip_eq_self {o : List Char} {c₁ c₂ : Char}
    (h1 : o.head? = some c₁) (hc1 : isPySpace c₁ = false)
    (h2 : o.getLast? = some c₂) (hc2 : isPySpace c₂ = false) : pyStrip o = o := by
  unfold pyStrip pyRStrip pyLStrip
  have hrev : o.reverse.head? = some c₂ := by rw [List.head?_reverse]; exact h2
  rw [dropWhile_eq_self_of_head hrev hc2, List.reverse_reverse,
    dropWhile_eq_self_of_head h1 hc1]

lemma pyStrip_head?_false {x : List Char} {c : Char}
    (h : (pyStrip x).head? = some c) : isPySpace c = false := by
  unfold pyStrip pyLStrip at h
  exact head?_dropWhile_false h

lemma getLast?_of_suffix {s l : List Char} {c : Char} (hs : s <:+ l)
    (h : s.getLast? = some c) : l.getLast? = some c := by
  obtain ⟨t, rfl⟩ := hs
  rw [List.getLast?_append, h]
  rfl

lemma pyStrip_getLast?_false {x : List Char} {c : Char}
    (h : (pyStrip x).getLast? = some c) : isPySpace c = false := by
  unfold pyStrip pyLStrip at h
  have h2 : (pyRStrip x).getLast? = some c :=
    getLast?_of_suffix (List.dropWhile_suffix _) h
  unfold pyRStrip at h2
  rw [List.getLast?_reverse] at h2
  exact head?_dropWhile_false h2

lemma pySplit_single {l : List Char} (h : '\n' ∉ l) : pySplit (chars "\n") l = [l] := by
  induction l with
  | nil => rfl
  | cons c rest ih =>
    have hc : c ≠ '\n' := fun hcc => h (hcc ▸ List.mem_cons_self _ _)
    have hrest : '\n' ∉ rest := fun hm => h (List.mem_cons_of_mem _ hm)
    show pySplitAux (chars "\n") (c :: rest) 0 = [c :: rest]
    have hpre : (chars "\n").isPrefixOf (c :: rest) = false := by
      simp only [chars]
      show (['\n'].isPrefixOf (c :: rest)) = false
      simp [List.isPrefixOf]
      intro hcn
      exact absurd hcn.symm hc
    unfold pySplitAux
    rw [hpre]
    simp only [Bool.and_false]
    rw [bif_neg rfl]
    have : pySplitAux (chars "\n") rest 0 = [rest] := ih hrest
    rw [this]

lemma intercalate_nil (sep : List Char) : List.intercalate sep [] = [] := rfl

lemma intercalate_single (sep a : List Char) : List.intercalate sep [a] = a := by
  simp [List.intercalate]

lemma intercalate_cons_cons (sep a b : List Char) (t : List (List Char)) :
    List.intercalate sep (a :: b :: t) = a ++ sep ++ List.intercalate sep (b :: t) := by
  simp [List.intercalate, List.intersperse]

lemma intercalate_head? {a : List Char} (t : List (List Char)) (ha : a ≠ []) :
    (List.intercalate (chars " ") (a :: t)).head? = a.head? := by
  obtain ⟨c, cs, rfl⟩ : ∃ c cs, a = c :: cs := by
    cases a with
    | nil => exact absurd rfl ha
    | cons c cs => exact ⟨c, cs, rfl⟩
  cases t with
  | nil => rw [intercalate_single]
  | cons b ts =>
    rw [intercalate_cons_cons]
    simp

lemma getLast?_eq_some_of_ne_nil {l : List Char} (h : l ≠ []) : ∃ c, l.getLast? = some c := by
  cases hgl : l.getLast? with
  | none => exact absurd (List.getLast?_eq_none_iff.mp hgl) h
  | some c => exact ⟨c, rfl⟩

lemma intercalate_getLast? :
    ∀ (t : List (List Char)) (a : List Char), (∀ l ∈ a :: t, l ≠ []) →
      ∃ l, l ∈ a :: t ∧ l ≠ [] ∧
        (List.intercalate (chars " ") (a :: t)).getLast? = l.getLast? := by
  intro t
  induction t with
  | nil =>
    intro a h
    exact ⟨a, List.mem_cons_self _ _, h a (List.mem_cons_self _ _), by rw [intercalate_single]⟩
  | cons b ts ih =>
    intro a h
    obtain ⟨l, hl, hlne, heq⟩ := ih b (fun x hx => h x (List.mem_cons_of_mem _ hx))
    obtain ⟨c, hc⟩ := getLast?_eq_some_of_ne_nil hlne
    refine ⟨l, List.mem_cons_of_mem _ hl, hlne, ?_⟩
    rw [intercalate_cons_cons, List.getLast?_append, heq, hc]
    rfl

lemma keepLine_eq_not_discardLine (l : List Char) : keepLine l = !discardLine l := by
  simp [keepLine, discardLine, Bool.not_or, Bool.and_assoc]

lemma keepLine_spec {l : List Char} (h : keepLine l = true) :
    l ≠ [] ∧ fullmatchDigits l = false ∧ matchHeader l = false := by
  simp only [keepLine, Bool.and_eq_true, Bool.not_eq_true'] at h
  refine ⟨?_, h.1.2, h.2⟩
  intro hnil
  rw [hnil] at h
  simp at h

lemma newline_not_mem_collapseWs (l : List Char) : '\n' ∉ collapseWs l := by
  intro h
  rcases mem_collapseWs h with h' | h'
  · exact absurd h' (by decide)
  · exact absurd h' (by decide)

lemma isPyDigit_space : isPyDigit ' ' = false := rfl

lemma collapseWs_intercalate_not_digits {kept : List (List Char)} {a : List Char}
    {t : List (List Char)} (hk : kept = a :: t)
    (hkeep : ∀ l ∈ kept, keepLine l = true) :
    fullmatchDigits (collapseWs (List.intercalate (chars " ") kept)) = false := by
  subst hk
  suffices h : ∃ d ∈ collapseWs (List.intercalate (chars " ") (a :: t)), isPyDigit d = false by
    obtain ⟨d, hd, hdd⟩ := h
    have : (collapseWs (List.intercalate (chars " ") (a :: t))).all isPyDigit = false :=
      List.all_eq_false.mpr ⟨d, hd, by simp [hdd]⟩
    simp [fullmatchDigits, this]
  cases t with
  | nil =>
    rw [intercalate_single]
    have hka := keepLine_spec (hkeep a (List.mem_cons_self _ _))
    have hnd : a.all isPyDigit = false := by
      have := hka.2.1
      simp only [fullmatchDigits, Bool.and_eq_false_iff, Bool.not_eq_false',
        List.isEmpty_iff] at this
      rcases this with h' | h'
      · exact absurd h' hka.1
      · exact h'
    obtain ⟨c, hc, hcd⟩ := List.all_eq_false.mp hnd
    cases hsp : isPySpace c with
    | true =>
      exact ⟨' ', space_mem_collapseWs hsp hc, isPyDigit_space⟩
    | false =>
      exact ⟨c, mem_collapseWs_of_mem hsp hc, by simpa using hcd⟩
  | cons b ts =>
    refine ⟨' ', ?_, isPyDigit_space⟩
    refine space_mem_collapseWs isPySpace_space ?_
    rw [intercalate_cons_cons]
    refine List.mem_append_left _ (List.mem_append_right _ ?_)
    exact List.mem_cons_self _ _

/-- C1 (counterexample): `clean_text` is not idempotent. Cleaning
`"Page\n3abc"` keeps both lines (neither alone is dropped) and joins
them into `"Page 3abc"`, which a second cleaning matches against
`^Page\s*\d+` and erases to `""`. -/
theorem clean_text_not_idempotent :
    clean_text (clean_text (chars "Page\n3abc")) ≠ clean_text (chars "Page\n3abc") := by
  decide

/-- C1 (amended): `clean_text` is idempotent on every input whose
cleaned output does not match the case-insensitive header pattern
`^(Page|Chapter|Section)\s*\d+`; re-cleaning such an output returns
it unchanged. -/
theorem clean_text_idempotent_unless_header (s : List Char)
    (h : matchHeader (clean_text s) = false) :
    clean_text (clean_text s) = clean_text s := by
  have hct : clean_text s =
      collapseWs (List.intercalate (chars " ")
        (((pySplit (chars "\n") s).map pyStrip).filter keepLine)) := rfl
  by_cases ho : clean_text s = []
  · rw [ho]; decide
  cases hk : ((pySplit (chars "\n") s).map pyStrip).filter keepLine with
  | nil =>
    rw [hk, intercalate_nil, collapseWs_nil] at hct
    exact absurd hct ho
  | cons a t =>
    have hmem_keep : ∀ l ∈ a :: t, keepLine l = true := by
      rw [← hk]
      intro l hl
      exact (List.mem_filter.mp hl).2
    have hmem_strip : ∀ l ∈ a :: t, ∃ x, l = pyStrip x := by
      rw [← hk]
      intro l hl
      obtain ⟨x, _, hx⟩ := List.mem_map.mp (List.mem_filter.mp hl).1
      exact ⟨x, hx.symm⟩
    have hmem_ne : ∀ l ∈ a :: t, l ≠ [] := fun l hl => (keepLine_spec (hmem_keep l hl)).1
    rw [hk] at hct
    -- head and last characters of the joined line are non-whitespace
    have hhead : ∃ c₁, (List.intercalate (chars " ") (a :: t)).head? = some c₁ ∧
        isPySpace c₁ = false := by
      have hane := hmem_ne a (List.mem_cons_self _ _)
      obtain ⟨x, hx⟩ := hmem_strip a (List.mem_cons_self _ _)
      obtain ⟨c, cs, hcc⟩ : ∃ c cs, a = c :: cs := by
        cases a with
        | nil => exact absurd rfl hane
        | cons c cs => exact ⟨c, cs, rfl⟩
      refine ⟨c, by rw [intercalate_head? t hane, hcc]; rfl, ?_⟩
      refine pyStrip_head?_false (x := x) ?_
      rw [← hx, hcc]
      rfl
    have hlast : ∃ c₂, (List.intercalate (chars " ") (a :: t)).getLast? = some c₂ ∧
        isPySpace c₂ = false := by
      obtain ⟨l, hl, hlne, heq⟩ := intercalate_getLast? t a hmem_ne
      obtain ⟨c, hc⟩ := getLast?_eq_some_of_ne_nil hlne
      obtain ⟨x, hx⟩ := hmem_strip l hl
      refine ⟨c, by rw [heq, hc], ?_⟩
      refine pyStrip_getLast?_false (x := x) ?_
      rw [← hx]
      exact hc
    obtain ⟨c₁, hc₁, hsp₁⟩ := hhead
    obtain ⟨c₂, hc₂, hsp₂⟩ := hlast
    -- the cleaned output o
    obtain ⟨d, ds, hds⟩ : ∃ d ds, clean_text s = d :: ds := by
      cases hc : clean_text s with
      | nil => exact absurd hc ho
      | cons d ds => exact ⟨d, ds, rfl⟩
    obtain ⟨j, js, hjj⟩ : ∃ j js, List.intercalate (chars " ") (a :: t) = j :: js := by
      cases hj : List.intercalate (chars " ") (a :: t) with
      | nil => rw [hj] at hc₁; simp at hc₁
      | cons j js => exact ⟨j, js, rfl⟩
    have hohead : (clean_text s).head? = some c₁ := by
      rw [hct, hjj]
      rw [hjj] at hc₁
      simp only [List.head?_cons, Option.some_inj] at hc₁
      subst hc₁
      exact collapseWs_head?_of_not_space hsp₁
    have holast : (clean_text s).getLast? = some c₂ := by
      rw [hct]
      exact collapseWs_getLast? hsp₂ hc₂
    -- o contains no newline, so splitting it yields one line
    have hnl : '\n' ∉ clean_text s := by
      rw [hct]
      exact newline_not_mem_collapseWs _
    -- o is its own strip
    have hstripo : pyStrip (clean_text s) = clean_text s :=
      pyStrip_eq_self hohead hsp₁ holast hsp₂
    -- o is not all digits
    have hdig : fullmatchDigits (clean_text s) = false := by
      rw [hct]
      exact collapseWs_intercalate_not_digits rfl hmem_keep
    -- o survives the filter
    have hkeepo : keepLine (clean_text s) = true := by
      simp only [keepLine, Bool.and_eq_true, Bool.not_eq_true']
      refine ⟨⟨?_, hdig⟩, h⟩
      rw [hds]
      rfl
    -- now compute clean_text (clean_text s)
    show collapseWs (List.intercalate (chars " ")
      (((pySplit (chars "\n") (clean_text s)).map pyStrip).filter keepLine)) = clean_text s
    rw [pySplit_single hnl]
    show collapseWs (List.intercalate (chars " ")
      (List.filter keepLine [pyStrip (clean_text s)])) = clean_text s
    rw [hstripo, List.filter_cons_of_pos hkeepo, List.filter_nil,
      intercalate_single, hct, collapseWs_collapseWs]

/-- C1 (witness for the amended theorem): the cleaned form of
`"Hello\nWorld"` does not match the header pattern, and re-cleaning
it returns it unchanged. -/
theorem clean_text_idempotent_witness :
    matchHeader (clean_text (chars "Hello\nWorld")) = false ∧
    clean_text (clean_text (chars "Hello\nWorld")) = clean_text (chars "Hello\nWorld") :=
  ⟨by decide, clean_text_idempotent_unless_header (chars "Hello\nWorld") (by decide)⟩

/-- C2: `clean_text` implements exactly the spec's pipeline — split on
line boundaries, trim each line, discard a line that is empty, all
digits, or a case-insensitive `^(Page|Chapter|Section)\s*\d+` header,
join survivors with single spaces, collapse whitespace runs — and on
the spec's scenario input it produces the spec's output. -/
theorem clean_text_matches_spec :
    (∀ s, clean_text s = clean_text_spec s) ∧
    clean_text (chars "1\nIntroduction to Thermodynamics\nPage 1\nHeat is energy.") =
      chars "Introduction to Thermodynamics Heat is energy." := by
  refine ⟨fun s => ?_, by decide⟩
  unfold clean_text clean_text_spec
  have h : (fun l => !discardLine l) = keepLine := by
    funext l
    rw [keepLine_eq_not_discardLine]
  rw [h]

/-- C5: an input whose trimmed lines all satisfy the discard condition
(empty, all digits, or header pattern) cleans to the empty string; the
line `"Chapter IV"` is not in this class (Roman numerals are not
digits) and survives cleaning unchanged. -/
theorem clean_text_empty_of_all_discard :
    (∀ s, ((pySplit (chars "\n") s).map pyStrip).all discardLine = true → clean_text s = []) ∧
    discardLine (chars "Chapter IV") = false ∧
    clean_text (chars "Chapter IV") = chars "Chapter IV" := by
  refine ⟨fun s h => ?_, by decide, by decide⟩
  have hnil : ((pySplit (chars "\n") s).map pyStrip).filter keepLine = [] := by
    rw [List.filter_eq_nil_iff]
    intro a ha
    have hda := List.all_eq_true.mp h a ha
    rw [keepLine_eq_not_discardLine, hda]
    simp
  show collapseWs (List.intercalate (chars " ")
    (((pySplit (chars "\n") s).map pyStrip).filter keepLine)) = []
  rw [hnil, intercalate_nil, collapseWs_nil]

/-- C5 (witness): `"12\nPage 3"` consists only of digit-only and
header lines, and cleans to the empty string. -/
theorem clean_text_empty_witness :
    ((pySplit (chars "\n") (chars "12\nPage 3")).map pyStrip).all discardLine = true ∧
    clean_text (chars "12\nPage 3") = [] :=
  ⟨by decide, clean_text_empty_of_all_discard.1 (chars "12\nPage 3") (by decide)⟩

/-- C6: for every input, the output of `clean_text` contains no two
consecutive space characters. -/
theorem clean_text_no_two_spaces (s : List Char) : noTwoSpaces (clean_text s) = true := by
  unfold clean_text
  exact noTwoSpaces_collapseWs _

lemma pyReplaceAux_skip (pat : List Char) :
    ∀ (l x : List Char), pyReplaceAux pat (l ++ x) l.length = pyReplaceAux pat x 0 := by
  intro l
  induction l with
  | nil => intro x; rfl
  | cons c ls ih => intro x; exact ih x

lemma isPrefixOf_cons_cons (a b : Char) (x y : List Char) :
    (a :: x).isPrefixOf (b :: y) = ((a == b) && x.isPrefixOf y) := rfl

lemma isPrefixOf_self_append (x y : List Char) : x.isPrefixOf (x ++ y) = true := by
  induction x with
  | nil => simp
  | cons c cs ih => rw [List.cons_append, isPrefixOf_cons_cons, ih, beq_self_eq_true]; rfl

lemma pyReplaceAux_zero (pat : List Char) (c : Char) (rest : List Char) :
    pyReplaceAux pat (c :: rest) 0 =
      if !pat.isEmpty && pat.isPrefixOf (c :: rest) then
        pyReplaceAux pat rest (pat.length - 1)
      else
        c :: pyReplaceAux pat rest 0 := rfl

lemma pyReplaceAux_label {pat : List Char} (hne : pat ≠ []) (x : List Char) :
    pyReplaceAux pat (pat ++ x) 0 = pyReplaceAux pat x 0 := by
  obtain ⟨p, ps, rfl⟩ : ∃ p ps, pat = p :: ps := by
    cases pat with
    | nil => exact absurd rfl hne
    | cons p ps => exact ⟨p, ps, rfl⟩
  rw [List.cons_append, pyReplaceAux_zero,
    bif_pos (by rw [← List.cons_append, isPrefixOf_self_append]; rfl)]
  have hlen : (p :: ps).length - 1 = ps.length := by simp
  rw [hlen]
  exact pyReplaceAux_skip _ ps x

lemma pyReplaceAux_no_occurrence {pat x : List Char} (h : ¬ pat <:+: x) :
    pyReplaceAux pat x 0 = x := by
  induction x with
  | nil => rfl
  | cons c rest ih =>
    have hpre : pat.isPrefixOf (c :: rest) = false := by
      cases hp : pat.isPrefixOf (c :: rest) with
      | false => rfl
      | true =>
        have hp2 := List.isPrefixOf_iff_prefix.mp hp
        exact absurd hp2.isInfix h
    refine Eq.trans (by rw [pyReplaceAux_zero, hpre, Bool.and_false, bif_neg rfl]) ?_
    have htl : ¬ pat <:+: rest := fun hx => h (hx.trans (List.suffix_cons c rest).isInfix)
    rw [ih htl]

lemma pyReplace_label_append {pat x : List Char} (hne : pat ≠ []) (h : ¬ pat <:+: x) :
    pyReplace pat (pat ++ x) = x := by
  unfold pyReplace
  rw [pyReplaceAux_label hne, pyReplaceAux_no_occurrence h]

lemma dropWhile_idem (p : Char → Bool) (l : List Char) :
    (l.dropWhile p).dropWhile p = l.dropWhile p := by
  cases h : l.dropWhile p with
  | nil => rfl
  | cons c t =>
    have hc : p c = false := head?_dropWhile_false (by rw [h]; rfl)
    exact List.dropWhile_cons_of_neg (by simp [hc])

lemma pyRStrip_idem (l : List Char) : pyRStrip (pyRStrip l) = pyRStrip l := by
  unfold pyRStrip
  rw [List.reverse_reverse, dropWhile_idem]

lemma pyStrip_pyRStrip (b : List Char) : pyStrip (pyRStrip b) = pyStrip b := by
  unfold pyStrip
  rw [pyRStrip_idem]

lemma pyRStrip_ne_nil_of_pyStrip {b : List Char} (h : pyStrip b ≠ []) : pyRStrip b ≠ [] := by
  intro hnil
  apply h
  unfold pyStrip
  rw [hnil]
  rfl

lemma pyRStrip_append {a b : List Char} (h : pyRStrip b ≠ []) :
    pyRStrip (a ++ b) = a ++ pyRStrip b := by
  unfold pyRStrip at *
  rw [List.reverse_append, List.dropWhile_append]
  have hne : (List.dropWhile isPySpace b.reverse).isEmpty = false := by
    cases hdw : List.dropWhile isPySpace b.reverse with
    | nil => exact absurd (by rw [hdw]; rfl) h
    | cons c t => rfl
  rw [bif_neg hne, List.reverse_append, List.reverse_reverse]

lemma pyStrip_sep_label_append {label b : List Char} {c : Char}
    (hc : label.head? = some c) (hcs : isPySpace c = false) (hb : pyRStrip b ≠ []) :
    pyStrip ((' ' :: label) ++ b) = label ++ pyRStrip b := by
  unfold pyStrip
  rw [pyRStrip_append hb]
  unfold pyLStrip
  rw [List.cons_append, List.dropWhile_cons_of_pos isPySpace_space]
  refine dropWhile_eq_self_of_head ?_ hcs
  rw [List.head?_append, hc]
  rfl

lemma not_infix_pyRStrip {pat b : List Char} (h : ¬ pat <:+: b) : ¬ pat <:+: pyRStrip b := by
  intro hx
  apply h
  have hpre : pyRStrip b <+: b := by
    unfold pyRStrip
    have hs : b.reverse.dropWhile isPySpace <:+ b.reverse := List.dropWhile_suffix _
    have := List.reverse_prefix.mpr hs
    rwa [List.reverse_reverse] at this
  exact hx.trans hpre.isInfix

/-- C3 (counterexample): the claim fails as stated. This response
satisfies the claim's premise — all three headings in order, each
introduced by `"###"` and followed by a nonempty body — but the first
body contains the literal phrase "Short Notes", and Python's
`part.replace("Short Notes", "")` deletes every occurrence of the
label, so `short_notes` comes back as `"These  cover X."` instead of
the trimmed body text between the headings,
`"These Short Notes cover X."`. -/
theorem generate_notes_roundtrip_cex :
    (generate_notes (chars "### Short Notes\nThese Short Notes cover X.\n### Bullet Points\nB.\n### Exam-Oriented Summary\nC.")).short_notes =
      chars "These  cover X." ∧
    chars "These  cover X." ≠ pyStrip (chars "\nThese Short Notes cover X.\n") ∧
    (generate_notes (chars "### Short Notes\nThese Short Notes cover X.\n### Bullet Points\nB.\n### Exam-Oriented Summary\nC.")).bullet_points =
      chars "B." ∧
    (generate_notes (chars "### Short Notes\nThese Short Notes cover X.\n### Bullet Points\nB.\n### Exam-Oriented Summary\nC.")).exam_summary =
      chars "C." := by
  decide

/-- C3 (amended): for a model response that splits on `"###"` into a
non-heading leading fragment and the three headings in order — each
heading followed by a body that does not contain its own heading
label, and whose trimmed text is nonempty — the parser returns all
three fields nonempty and equal to the trimmed body text between the
headings. The label-freeness condition is forced by the
counterexample: `str.replace` deletes every occurrence of the label,
not just the leading one. -/
theorem generate_notes_roundtrip
    (output f0 b1 b2 b3 : List Char)
    (hsplit : pySplit (chars "###") output =
      [f0, chars " Short Notes" ++ b1, chars " Bullet Points" ++ b2,
        chars " Exam-Oriented Summary" ++ b3])
    (hf0s : (chars "Short Notes").isPrefixOf (pyStrip f0) = false)
    (hf0b : (chars "Bullet Points").isPrefixOf (pyStrip f0) = false)
    (hf0e : (chars "Exam-Oriented Summary").isPrefixOf (pyStrip f0) = false)
    (hb1 : ¬ chars "Short Notes" <:+: b1)
    (hb2 : ¬ chars "Bullet Points" <:+: b2)
    (hb3 : ¬ chars "Exam-Oriented Summary" <:+: b3)
    (hn1 : pyStrip b1 ≠ []) (hn2 : pyStrip b2 ≠ []) (hn3 : pyStrip b3 ≠ []) :
    generate_notes output = ⟨pyStrip b1, pyStrip b2, pyStrip b3⟩ ∧
      pyStrip b1 ≠ [] ∧ pyStrip b2 ≠ [] ∧ pyStrip b3 ≠ [] := by
  refine ⟨?_, hn1, hn2, hn3⟩
  have hstrip1 : pyStrip (chars " Short Notes" ++ b1) =
      chars "Short Notes" ++ pyRStrip b1 := by
    rw [show chars " Short Notes" = ' ' :: chars "Short Notes" from rfl]
    exact pyStrip_sep_label_append rfl rfl (pyRStrip_ne_nil_of_pyStrip hn1)
  have hstrip2 : pyStrip (chars " Bullet Points" ++ b2) =
      chars "Bullet Points" ++ pyRStrip b2 := by
    rw [show chars " Bullet Points" = ' ' :: chars "Bullet Points" from rfl]
    exact pyStrip_sep_label_append rfl rfl (pyRStrip_ne_nil_of_pyStrip hn2)
  have hstrip3 : pyStrip (chars " Exam-Oriented Summary" ++ b3) =
      chars "Exam-Oriented Summary" ++ pyRStrip b3 := by
    rw [show chars " Exam-Oriented Summary" = ' ' :: chars "Exam-Oriented Summary" from rfl]
    exact pyStrip_sep_label_append rfl rfl (pyRStrip_ne_nil_of_pyStrip hn3)
  have e0 : noteStep ⟨[], [], []⟩ f0 = ⟨[], [], []⟩ := by
    simp only [noteStep]
    rw [bif_neg hf0s, bif_neg hf0b, bif_neg hf0e]
  have e1 : noteStep ⟨[], [], []⟩ (chars " Short Notes" ++ b1) = ⟨pyStrip b1, [], []⟩ := by
    simp only [noteStep]
    rw [hstrip1, bif_pos (isPrefixOf_self_append _ _),
      pyReplace_label_append (by decide) (not_infix_pyRStrip hb1), pyStrip_pyRStrip]
  have hSB : (chars "Short Notes").isPrefixOf (chars "Bullet Points" ++ pyRStrip b2) =
      false := by
    rw [show chars "Short Notes" = 'S' :: chars "hort Notes" from rfl,
      show chars "Bullet Points" = 'B' :: chars "ullet Points" from rfl,
      List.cons_append, isPrefixOf_cons_cons,
      show ('S' == 'B') = false from rfl, Bool.false_and]
  have e2 : noteStep ⟨pyStrip b1, [], []⟩ (chars " Bullet Points" ++ b2) =
      ⟨pyStrip b1, pyStrip b2, []⟩ := by
    simp only [noteStep]
    rw [hstrip2, bif_neg hSB, bif_pos (isPrefixOf_self_append _ _),
      pyReplace_label_append (by decide) (not_infix_pyRStrip hb2), pyStrip_pyRStrip]
  have hSE : (chars "Short Notes").isPrefixOf
      (chars "Exam-Oriented Summary" ++ pyRStrip b3) = false := by
    rw [show chars "Short Notes" = 'S' :: chars "hort Notes" from rfl,
      show chars "Exam-Oriented Summary" = 'E' :: chars "xam-Oriented Summary" from rfl,
      List.cons_append, isPrefixOf_cons_cons,
      show ('S' == 'E') = false from rfl, Bool.false_and]
  have hBE : (chars "Bullet Points").isPrefixOf
      (chars "Exam-Oriented Summary" ++ pyRStrip b3) = false := by
    rw [show chars "Bullet Points" = 'B' :: chars "ullet Points" from rfl,
      show chars "Exam-Oriented Summary" = 'E' :: chars "xam-Oriented Summary" from rfl,
      List.cons_append, isPrefixOf_cons_cons,
      show ('B' == 'E') = false from rfl, Bool.false_and]
  have e3 : noteStep ⟨pyStrip b1, pyStrip b2, []⟩ (chars " Exam-Oriented Summary" ++ b3) =
      ⟨pyStrip b1, pyStrip b2, pyStrip b3⟩ := by
    simp only [noteStep]
    rw [hstrip3, bif_neg hSE, bif_neg hBE, bif_pos (isPrefixOf_self_append _ _),
      pyReplace_label_append (by decide) (not_infix_pyRStrip hb3), pyStrip_pyRStrip]
  show (pySplit (chars "###") output).foldl noteStep ⟨[], [], []⟩ =
    (⟨pyStrip b1, pyStrip b2, pyStrip b3⟩ : Sections)
  rw [hsplit, List.foldl_cons, List.foldl_cons, List.foldl_cons, List.foldl_cons,
    List.foldl_nil, e0, e1, e2, e3]

/-- C3 (witness): a concrete well-formed response parses into its
three trimmed bodies. -/
theorem generate_notes_roundtrip_witness :
    pySplit (chars "###")
        (chars "### Short Notes\nA1.\n### Bullet Points\nB2.\n### Exam-Oriented Summary\nC3.") =
      [[], chars " Short Notes" ++ chars "\nA1.\n", chars " Bullet Points" ++ chars "\nB2.\n",
        chars " Exam-Oriented Summary" ++ chars "\nC3."] ∧
    generate_notes
        (chars "### Short Notes\nA1.\n### Bullet Points\nB2.\n### Exam-Oriented Summary\nC3.") =
      ⟨chars "A1.", chars "B2.", chars "C3."⟩ := by
  refine ⟨by decide, ?_⟩
  have h := (generate_notes_roundtrip
    (chars "### Short Notes\nA1.\n### Bullet Points\nB2.\n### Exam-Oriented Summary\nC3.")
    [] (chars "\nA1.\n") (chars "\nB2.\n") (chars "\nC3.")
    (by decide) (by decide) (by decide) (by decide)
    (by decide) (by decide) (by decide)
    (by decide) (by decide) (by decide)).1
  rw [h]
  decide

lemma foldl_noteStep_short (parts : List (List Char)) :
    ∀ acc : Sections,
      (∀ p ∈ parts, (chars "Short Notes").isPrefixOf (pyStrip p) = false) →
      (parts.foldl noteStep acc).short_notes = acc.short_notes := by
  induction parts with
  | nil => intro acc _; rfl
  | cons p ps ih =>
    intro acc h
    rw [List.foldl_cons, ih _ (fun q hq => h q (List.mem_cons_of_mem _ hq))]
    simp only [noteStep]
    rw [bif_neg (h p (List.mem_cons_self _ _))]
    cases h2 : (chars "Bullet Points").isPrefixOf (pyStrip p) with
    | true => rw [bif_pos rfl]
    | false =>
      rw [bif_neg rfl]
      cases h3 : (chars "Exam-Oriented Summary").isPrefixOf (pyStrip p) with
      | true => rw [bif_pos rfl]
      | false => rw [bif_neg rfl]

lemma foldl_noteStep_bullet (parts : List (List Char)) :
    ∀ acc : Sections,
      (∀ p ∈ parts, (chars "Bullet Points").isPrefixOf (pyStrip p) = false) →
      (parts.foldl noteStep acc).bullet_points = acc.bullet_points := by
  induction parts with
  | nil => intro acc _; rfl
  | cons p ps ih =>
    intro acc h
    rw [List.foldl_cons, ih _ (fun q hq => h q (List.mem_cons_of_mem _ hq))]
    simp only [noteStep]
    cases h1 : (chars "Short Notes").isPrefixOf (pyStrip p) with
    | true => rw [bif_pos rfl]
    | false =>
      rw [bif_neg rfl, bif_neg (h p (List.mem_cons_self _ _))]
      cases h3 : (chars "Exam-Oriented Summary").isPrefixOf (pyStrip p) with
      | true => rw [bif_pos rfl]
      | false => rw [bif_neg rfl]

lemma foldl_noteStep_exam (parts : List (List Char)) :
    ∀ acc : Sections,
      (∀ p ∈ parts, (chars "Exam-Oriented Summary").isPrefixOf (pyStrip p) = false) →
      (parts.foldl noteStep acc).exam_summary = acc.exam_summary := by
  induction parts with
  | nil => intro acc _; rfl
  | cons p ps ih =>
    intro acc h
    rw [List.foldl_cons, ih _ (fun q hq => h q (List.mem_cons_of_mem _ hq))]
    simp only [noteStep]
    cases h1 : (chars "Short Notes").isPrefixOf (pyStrip p) with
    | true => rw [bif_pos rfl]
    | false =>
      rw [bif_neg rfl]
      cases h2 : (chars "Bullet Points").isPrefixOf (pyStrip p) with
      | true => rw [bif_pos rfl]
      | false => rw [bif_neg rfl, bif_neg (h p (List.mem_cons_self _ _))]

/-- C4: the parser never fails on a deviating response: any of the
three sections whose heading label is not found at the start of a
stripped delimiter-split fragment is returned as the empty string. -/
theorem generate_notes_missing_heading_empty (output : List Char) :
    ((∀ p ∈ pySplit (chars "###") output,
        (chars "Short Notes").isPrefixOf (pyStrip p) = false) →
      (generate_notes output).short_notes = []) ∧
    ((∀ p ∈ pySplit (chars "###") output,
        (chars "Bullet Points").isPrefixOf (pyStrip p) = false) →
      (generate_notes output).bullet_points = []) ∧
    ((∀ p ∈ pySplit (chars "###") output,
        (chars "Exam-Oriented Summary").isPrefixOf (pyStrip p) = false) →
      (generate_notes output).exam_summary = []) := by
  refine ⟨fun h => ?_, fun h => ?_, fun h => ?_⟩
  · exact foldl_noteStep_short _ _ h
  · exact foldl_noteStep_bullet _ _ h
  · exact foldl_noteStep_exam _ _ h

/-- C4 (witness): a response omitting the "Bullet Points" heading
yields `bullet_points = ""` while the other two sections are still
populated from their headings. -/
theorem generate_notes_missing_heading_witness :
    (∀ p ∈ pySplit (chars "###") (chars "### Short Notes\nalpha\n### Exam-Oriented Summary\nbeta"),
      (chars "Bullet Points").isPrefixOf (pyStrip p) = false) ∧
    (generate_notes (chars "### Short Notes\nalpha\n### Exam-Oriented Summary\nbeta")).bullet_points
      = [] ∧
    generate_notes (chars "### Short Notes\nalpha\n### Exam-Oriented Summary\nbeta") =
      ⟨chars "alpha", [], chars "beta"⟩ :=
  ⟨by decide,
   (generate_notes_missing_heading_empty
     (chars "### Short Notes\nalpha\n### Exam-Oriented Summary\nbeta")).2.1 (by decide),
   by decide⟩

lemma isEmpty_eq_false_of_ne_nil {l : List Char} (h : l ≠ []) : l.isEmpty = false := by
  cases l with
  | nil => exact absurd rfl h
  | cons c t => rfl

lemma extract_snd (o : Except Unit (List (Except Unit (List Char)))) :
    (∃ t, (extract_text_from_pdf o).2 = .ok t) ∨
      (extract_text_from_pdf o).2 = .error (400, chars "PDF text extraction failed") := by
  cases o with
  | error e => exact Or.inr rfl
  | ok pages =>
    simp only [extract_text_from_pdf]
    cases hj : joinPages pages with
    | error e => exact Or.inr rfl
    | ok ts => exact Or.inl ⟨_, rfl⟩

lemma upload_file_pdf_ok {fn : List Char} {o : Except Unit (List (Except Unit (List Char)))}
    {d : Except Unit (List Char)} {t : List Char}
    (h : (chars ".pdf").isSuffixOf fn = true) (hok : (extract_text_from_pdf o).2 = .ok t) :
    upload_file fn o d =
      if (clean_text t).isEmpty then .err 400 (chars "No valid text found")
      else .ok (clean_text t) := by
  unfold upload_file
  rw [bif_pos h, hok]

lemma upload_file_pdf_err {fn : List Char} {o : Except Unit (List (Except Unit (List Char)))}
    {d : Except Unit (List Char)}
    (h : (chars ".pdf").isSuffixOf fn = true)
    (herr : (extract_text_from_pdf o).2 = .error (400, chars "PDF text extraction failed")) :
    upload_file fn o d = .err 400 (chars "PDF text extraction failed") := by
  unfold upload_file
  rw [bif_pos h, herr]

lemma upload_file_txt_ok {fn : List Char} {o : Except Unit (List (Except Unit (List Char)))}
    {t : List Char}
    (h1 : (chars ".pdf").isSuffixOf fn = false) (h2 : (chars ".txt").isSuffixOf fn = true) :
    upload_file fn o (.ok t) =
      if (clean_text t).isEmpty then .err 400 (chars "No valid text found")
      else .ok (clean_text t) := by
  unfold upload_file
  rw [bif_neg h1, bif_pos h2]

lemma upload_file_txt_err {fn : List Char} {o : Except Unit (List (Except Unit (List Char)))}
    {e : Unit}
    (h1 : (chars ".pdf").isSuffixOf fn = false) (h2 : (chars ".txt").isSuffixOf fn = true) :
    upload_file fn o (.error e) = .uncaught := by
  unfold upload_file
  rw [bif_neg h1, bif_pos h2]

lemma upload_file_other {fn : List Char} {o : Except Unit (List (Except Unit (List Char)))}
    {d : Except Unit (List Char)}
    (h1 : (chars ".pdf").isSuffixOf fn = false) (h2 : (chars ".txt").isSuffixOf fn = false) :
    upload_file fn o d = .err 400 (chars "Only PDF and TXT supported") := by
  unfold upload_file
  rw [bif_neg h1, bif_neg h2]

/-- C7 (counterexample): it is not true that the upload operation
fails with a 400 client error exactly when the filename has neither a
`.pdf` nor a `.txt` suffix — a file named `"a.pdf"` whose extraction
fails also produces a 400 error. -/
theorem upload_400_not_only_unsupported :
    ¬ ∀ (fn : List Char) (o : Except Unit (List (Except Unit (List Char))))
        (d : Except Unit (List Char)),
        (∃ detail, upload_file fn o d = .err 400 detail) ↔
          ((chars ".pdf").isSuffixOf fn = false ∧ (chars ".txt").isSuffixOf fn = false) := by
  intro h
  have h2 := (h (chars "a.pdf") (.error ()) (.error ())).mp
    ⟨chars "PDF text extraction failed", by decide⟩
  exact absurd h2.1 (by decide)

/-- C7 (amended): the upload operation fails with the 400
unsupported-format error (detail "Only PDF and TXT supported") exactly
when the filename ends in neither ".pdf" nor ".txt"; for such a
filename the result is this error regardless of file content (no
extraction or cleaning happens), and in particular "data.csv" yields
it. -/
theorem upload_unsupported_format :
    (∀ (fn : List Char) (o : Except Unit (List (Except Unit (List Char))))
        (d : Except Unit (List Char)),
      upload_file fn o d = .err 400 (chars "Only PDF and TXT supported") ↔
        ((chars ".pdf").isSuffixOf fn = false ∧ (chars ".txt").isSuffixOf fn = false)) ∧
    (∀ (o : Except Unit (List (Except Unit (List Char)))) (d : Except Unit (List Char)),
      upload_file (chars "data.csv") o d = .err 400 (chars "Only PDF and TXT supported")) := by
  constructor
  · intro fn o d
    constructor
    · intro heq
      cases hpdf : (chars ".pdf").isSuffixOf fn with
      | true =>
        exfalso
        rcases extract_snd o with ⟨t, hok⟩ | herr
        · rw [upload_file_pdf_ok hpdf hok] at heq
          cases hcl : (clean_text t).isEmpty with
          | true =>
            rw [bif_pos hcl] at heq
            exact absurd heq (by decide)
          | false =>
            rw [bif_neg hcl] at heq
            exact UploadResult.noConfusion heq
        · rw [upload_file_pdf_err hpdf herr] at heq
          exact absurd heq (by decide)
      | false =>
        cases htxt : (chars ".txt").isSuffixOf fn with
        | true =>
          exfalso
          cases d with
          | error e =>
            rw [upload_file_txt_err hpdf htxt] at heq
            exact UploadResult.noConfusion heq
          | ok t =>
            rw [upload_file_txt_ok hpdf htxt] at heq
            cases hcl : (clean_text t).isEmpty with
            | true =>
              rw [bif_pos hcl] at heq
              exact absurd heq (by decide)
            | false =>
              rw [bif_neg hcl] at heq
              exact UploadResult.noConfusion heq
        | false => exact ⟨rfl, rfl⟩
    · rintro ⟨h1, h2⟩
      exact upload_file_other h1 h2
  · intro o d
    exact upload_file_other (by decide) (by decide)

/-- C8: when extraction succeeds with text `t` (via the PDF path or
the UTF-8 text path), the upload operation returns a 400
`EmptyContentError` ("No valid text found") exactly when the cleaned
text is empty, and otherwise returns exactly the cleaned text. -/
theorem upload_empty_or_cleaned (fn : List Char)
    (o : Except Unit (List (Except Unit (List Char)))) (d : Except Unit (List Char))
    (text : List Char)
    (hsrc : ((chars ".pdf").isSuffixOf fn = true ∧ (extract_text_from_pdf o).2 = .ok text) ∨
      ((chars ".pdf").isSuffixOf fn = false ∧ (chars ".txt").isSuffixOf fn = true ∧
        d = .ok text)) :
    (clean_text text = [] → upload_file fn o d = .err 400 (chars "No valid text found")) ∧
    (clean_text text ≠ [] → upload_file fn o d = .ok (clean_text text)) := by
  have key : upload_file fn o d =
      if (clean_text text).isEmpty then .err 400 (chars "No valid text found")
      else .ok (clean_text text) := by
    rcases hsrc with ⟨hp, hok⟩ | ⟨hp, ht, hd⟩
    · exact upload_file_pdf_ok hp hok
    · rw [hd]
      exact upload_file_txt_ok hp ht
  rw [key]
  constructor
  · intro hcl
    rw [bif_pos (by rw [hcl]; rfl)]
  · intro hcl
    rw [bif_neg (isEmpty_eq_false_of_ne_nil hcl)]

/-- C8 (witness): a `.txt` upload with decodable content returns its
cleaned text, and one whose content cleans to nothing fails with the
400 empty-content error. -/
theorem upload_empty_or_cleaned_witness :
    upload_file (chars "a.txt") (.error ()) (.ok (chars "hi\nthere")) =
      .ok (chars "hi there") ∧
    upload_file (chars "b.txt") (.error ()) (.ok (chars "1\n2")) =
      .err 400 (chars "No valid text found") := by
  constructor
  · have h := (upload_empty_or_cleaned (chars "a.txt") (.error ()) (.ok (chars "hi\nthere"))
      (chars "hi\nthere") (Or.inr ⟨by decide, by decide, rfl⟩)).2 (by decide)
    rw [h]
    decide
  · exact (upload_empty_or_cleaned (chars "b.txt") (.error ()) (.ok (chars "1\n2"))
      (chars "1\n2") (Or.inr ⟨by decide, by decide, rfl⟩)).1 (by decide)

/-- C9: the claim that the document handle is released on every exit
path fails on the code: when a page's `get_text` raises after a
successful open, the `except` clause converts the exception to a 400
error without ever reaching `doc.close()` — the trace records the
open but no close. On the success path the handle is closed. -/
theorem extract_leaks_handle_on_page_error :
    (extract_text_from_pdf (.ok [.error ()])).1 = [Ev.opened] ∧
    Ev.closed ∉ (extract_text_from_pdf (.ok [.error ()])).1 ∧
    (extract_text_from_pdf (.ok [.ok (chars "x")])).1 = [Ev.opened, Ev.closed] := by
  decide

/-- C10: the extension dispatch uses Python's case-sensitive
`str.endswith`, so only exact lowercase ".pdf" / ".txt" suffixes are
accepted: "notes.PDF" and "notes.TXT" are rejected with the 400
unsupported-format error regardless of content, and in general any
filename with neither lowercase suffix is so rejected. -/
theorem upload_dispatch_case_sensitive :
    (∀ (o : Except Unit (List (Except Unit (List Char)))) (d : Except Unit (List Char)),
      upload_file (chars "notes.PDF") o d = .err 400 (chars "Only PDF and TXT supported")) ∧
    (∀ (o : Except Unit (List (Except Unit (List Char)))) (d : Except Unit (List Char)),
      upload_file (chars "notes.TXT") o d = .err 400 (chars "Only PDF and TXT supported")) ∧
    (∀ (fn : List Char) (o : Except Unit (List (Except Unit (List Char))))
        (d : Except Unit (List Char)),
      (chars ".pdf").isSuffixOf fn = false → (chars ".txt").isSuffixOf fn = false →
      upload_file fn o d = .err 400 (chars "Only PDF and TXT supported")) :=
  ⟨fun _ _ => upload_file_other (by decide) (by decide),
   fun _ _ => upload_file_other (by decide) (by decide),
   fun _ _ _ h1 h2 => upload_file_other h1 h2⟩

/-- C10 (witness): "x.csv" has neither suffix and is rejected with the
unsupported-format error. -/
theorem upload_dispatch_case_witness :
    (chars ".pdf").isSuffixOf (chars "x.csv") = false ∧
    (chars ".txt").isSuffixOf (chars "x.csv") = false ∧
    upload_file (chars "x.csv") (.error ()) (.error ()) =
      .err 400 (chars "Only PDF and TXT supported") :=
  ⟨by decide, by decide,
   upload_dispatch_case_sensitive.2.2 (chars "x.csv") (.error ()) (.error ())
     (by decide) (by decide)⟩
